import Mathlib

attribute [local semireducible] Rat.add Rat.mul Rat.inv Rat.sub Rat.ofScientific

/-!
Verification of the LexA-Index data-build pipeline (`build_data.py`).

The Python source is shallowly embedded as follows.

* A CSV cell is a `Cell`: its raw text together with the result of Python's
  `float()` on that text (`none` models a `ValueError`).  Python floats are
  modelled by exact rationals (`ℚ`); non-finite parses (nan/inf) are outside
  the model.
* `math.log2` is an arbitrary parameter `flog2 : ℚ → ℚ` (an IEEE float result
  is itself a rational, but its exact value depends on libm, so it is kept
  abstract).  Likewise `math.log` is `fln` where needed.
* Python `round(x, n)` (round half to even on the exact value) is `pyRound`.
* Python exceptions are modelled by explicit error results (`RowResult.err`,
  `Except.error`): an exception aborts the enclosing per-file `try` block.
-/

/-- A CSV cell: the raw text and the result of Python `float()` on it
(`none` means `float()` raises `ValueError`). -/
structure Cell where
  raw : String
  num : Option ℚ
deriving DecidableEq

/-- One CSV data row (`csv.DictReader` mapping restricted to the columns the
code reads): `form`, `upos`, `c_M`, `c_H`, `LAS`.  `none` means the column is
absent from the row. -/
structure CsvRow where
  form : Option Cell
  upos : Option Cell
  c_M : Option Cell
  c_H : Option Cell
  las : Option Cell
deriving DecidableEq

/-- Output mode: `--mode` is one of `full`, `compact`. -/
inductive Mode
  | full
  | compact
deriving DecidableEq

/-- Configuration reaching the row loop: `min_ai_count_for_impact`, `mode`,
`ratio_smooth` (field `sm`, as in the emitted meta), `total_tokens`. -/
structure Config where
  minAi : Int
  mode : Mode
  sm : ℚ
  totalTokens : Int
deriving DecidableEq

/-- A stored output row, with the compact keys used by the source:
`w`, `u`, `las`, `lpr`, `a`, `h`, `r`, `rk_las`, `rk_lpr`. -/
structure OutRow where
  w : String
  u : String
  las : ℚ
  lpr : ℚ
  a : ℚ
  h : ℚ
  r : ℚ
  rk_las : Nat
  rk_lpr : Nat
deriving DecidableEq

/-- Result of the loop body for one CSV row: an uncaught exception (`err`,
which aborts the whole file), a `continue` from the alnum filter, a `continue`
from the compact filter, or an appended row. -/
inductive RowResult
  | err
  | droppedAlnum
  | droppedCompact
  | emitted (r : OutRow)
deriving DecidableEq

/-- Floor of a rational, `Int.fdiv` of numerator by denominator. -/
def qfloor (x : ℚ) : Int := Int.fdiv x.num (x.den : Int)

/-- Round a rational to the nearest integer, ties to even — the rounding mode
of Python `round`. -/
def roundHalfEven (x : ℚ) : Int :=
  let f : Int := qfloor x
  let frac : ℚ := x - (f : ℚ)
  if frac < 1 / 2 then f
  else if 1 / 2 < frac then f + 1
  else if f % 2 = 0 then f else f + 1

/-- Python `round(x, n)` on the exact value. -/
def pyRound (n : Nat) (x : ℚ) : ℚ := (roundHalfEven (x * 10 ^ n) : ℚ) / 10 ^ n

/-- `float(row[k]) if row.get(k) else 0.0`: an absent key or empty string
(falsy) defaults to `0.0`; a non-empty unparseable string raises
`ValueError` (modelled as `Except.error`). -/
def parseNum (c : Option Cell) : Except Unit ℚ :=
  match c with
  | none => .ok 0
  | some cl =>
    if cl.raw = "" then .ok 0
    else
      match cl.num with
      | some q => .ok q
      | none => .error ()

/-- A cell that is absent or holds the empty string (falsy in Python). -/
def cellBlank (c : Option Cell) : Bool :=
  match c with
  | none => true
  | some cl => cl.raw = ""

/-- A cell that is present, non-empty, and on which `float()` raises. -/
def cellBad (c : Option Cell) : Bool :=
  match c with
  | none => false
  | some cl => ¬ cl.raw = "" ∧ cl.num = none

/-- Python `str.strip()`: drop whitespace from both ends.  (Python strips
Unicode whitespace; `Char.isWhitespace` covers the values occurring here.) -/
def pyStrip (s : String) : String :=
  String.mk (((s.data.dropWhile Char.isWhitespace).reverse.dropWhile Char.isWhitespace).reverse)

/-- `has_any_alnum`: strip, reject the empty result, else test whether any
character is alphanumeric.  (Python `str.isalnum` is Unicode-aware; `form`
values are assumed within the range where `Char.isAlphanum` agrees.) -/
def has_any_alnum (token : String) : Bool :=
  let t := pyStrip token
  if t = "" then false else t.data.any Char.isAlphanum

/-- `row.get("form", "")` as a string. -/
def formStr (row : CsvRow) : String :=
  match row.form with
  | some c => c.raw
  | none => ""

/-- `(c_M + ratio_smooth) / (c_H + ratio_smooth)`, raising
`ZeroDivisionError` when the denominator is zero (Python raises on float
division by zero too). -/
def smoothedRatioE (cM cH s : ℚ) : Except Unit ℚ :=
  if cH + s = 0 then .error () else .ok ((cM + s) / (cH + s))

/-- The loop body of `process_directory` for one CSV row: the alnum filter,
count parsing, the compact filter, OPM, smoothed ratio, impact (LPR), LAS
parsing, and the appended row (ranks are assigned later, stored as 0). -/
def processRow (flog2 : ℚ → ℚ) (cfg : Config) (row : CsvRow) : RowResult :=
  let form := formStr row
  if has_any_alnum form then
    match parseNum row.c_M with
    | .error _ => .err
    | .ok cM =>
      match parseNum row.c_H with
      | .error _ => .err
      | .ok cH =>
        if cfg.mode = Mode.compact ∧ cM = 0 then .droppedCompact
        else
          let opmAi : ℚ := if 0 < cfg.totalTokens then cM / (cfg.totalTokens : ℚ) * 1000000 else 0
          let opmHu : ℚ := if 0 < cfg.totalTokens then cH / (cfg.totalTokens : ℚ) * 1000000 else 0
          match smoothedRatioE cM cH cfg.sm with
          | .error _ => .err
          | .ok rat =>
            let lprE : Except Unit ℚ :=
              if (cfg.minAi : ℚ) ≤ cM then
                if cH + 1 = 0 then .error ()
                else if (cM + 1) / (cH + 1) ≤ 0 then .error ()
                else .ok (flog2 ((cM + 1) / (cH + 1)))
              else .ok 0
            match lprE with
            | .error _ => .err
            | .ok lpr =>
              match parseNum row.las with
              | .error _ => .err
              | .ok lasV =>
                .emitted
                  { w := pyStrip form
                    u := match row.upos with | some c => c.raw | none => "UNK"
                    las := lasV
                    lpr := lpr
                    a := pyRound 2 opmAi
                    h := pyRound 2 opmHu
                    r := pyRound 1 rat
                    rk_las := 0
                    rk_lpr := 0 }
  else .droppedAlnum

/-- The reading loop over one CSV file.  Returns the appended rows together
with the counters `n_rows_csv` and `n_rows_dropped_non_alnum`; any uncaught
exception in the loop body aborts the whole file (`Except.error`). -/
def processRows (flog2 : ℚ → ℚ) (cfg : Config) : List CsvRow → Except Unit (List OutRow × Nat × Nat)
  | [] => .ok ([], 0, 0)
  | row :: rest =>
    match processRow flog2 cfg row with
    | .err => .error ()
    | .droppedAlnum =>
      match processRows flog2 cfg rest with
      | .error e => .error e
      | .ok (rs, n0, nx) => .ok (rs, n0 + 1, nx + 1)
    | .droppedCompact =>
      match processRows flog2 cfg rest with
      | .error e => .error e
      | .ok (rs, n0, nx) => .ok (rs, n0 + 1, nx)
    | .emitted r =>
      match processRows flog2 cfg rest with
      | .error e => .error e
      | .ok (rs, n0, nx) => .ok (r :: rs, n0 + 1, nx)

/-- Descending-by-`las` ordering used by sort pass A (`key=las, reverse=True`). -/
def lasGe (x y : OutRow) : Prop := y.las ≤ x.las

/-- Descending-by-`lpr` ordering used by sort pass B (`key=lpr, reverse=True`). -/
def lprGe (x y : OutRow) : Prop := y.lpr ≤ x.lpr

/-- Ascending-by-`rk_las` ordering used by the final sort pass C. -/
def rkLasLe (x y : OutRow) : Prop := x.rk_las ≤ y.rk_las

instance : DecidableRel lasGe := fun x y => inferInstanceAs (Decidable (y.las ≤ x.las))

instance : DecidableRel lprGe := fun x y => inferInstanceAs (Decidable (y.lpr ≤ x.lpr))

instance : DecidableRel rkLasLe := fun x y => inferInstanceAs (Decidable (x.rk_las ≤ y.rk_las))

instance : IsTotal OutRow lasGe := ⟨fun x y => le_total y.las x.las⟩

instance : IsTrans OutRow lasGe := ⟨fun _ _ _ h1 h2 => le_trans h2 h1⟩

instance : IsTotal OutRow lprGe := ⟨fun x y => le_total y.lpr x.lpr⟩

instance : IsTrans OutRow lprGe := ⟨fun _ _ _ h1 h2 => le_trans h2 h1⟩

instance : IsTotal OutRow rkLasLe := ⟨fun x y => Nat.le_total x.rk_las y.rk_las⟩

instance : IsTrans OutRow rkLasLe := ⟨fun _ _ _ h1 h2 => le_trans h1 h2⟩

/-- `for i, r in enumerate(rows): r["rk_las"] = i + 1`, starting at index `i`. -/
def assignRkLasFrom (i : Nat) : List OutRow → List OutRow
  | [] => []
  | r :: rest => { r with rk_las := i + 1 } :: assignRkLasFrom (i + 1) rest

/-- `for i, r in enumerate(rows): r["rk_lpr"] = i + 1`, starting at index `i`. -/
def assignRkLprFrom (i : Nat) : List OutRow → List OutRow
  | [] => []
  | r :: rest => { r with rk_lpr := i + 1 } :: assignRkLprFrom (i + 1) rest

/-- Final in-place rounding of `las` and `lpr` to 4 decimals (pass C). -/
def roundFinal (r : OutRow) : OutRow :=
  { r with las := pyRound 4 r.las, lpr := pyRound 4 r.lpr }

/-- The multi-pass ranking of step 4 of `process_directory`:
stable sort descending by `las` and enumerate `rk_las`;
stable sort descending by `lpr` and enumerate `rk_lpr`;
stable sort ascending by `rk_las` and round `las`/`lpr`.
Python `list.sort` is stable, embedded here by the stable `insertionSort`. -/
def rankRows (l : List OutRow) : List OutRow :=
  let a := assignRkLasFrom 0 (List.insertionSort lasGe l)
  let b := assignRkLprFrom 0 (List.insertionSort lprGe a)
  (List.insertionSort rkLasLe b).map roundFinal

/-- `folder_name.replace("las-", "")`: Python `str.replace` removes every
occurrence of the substring, scanning left to right, non-overlapping. -/
def stripLasDash : List Char → List Char
  | 'l' :: 'a' :: 's' :: '-' :: rest => stripLasDash rest
  | c :: rest => c :: stripLasDash rest
  | [] => []

/-- Whether the regex `-\d{4}-\d{2}-\d{2}` matches at the head of the list
(`\d` restricted to ASCII digits; folder names are assumed newline-free, so
the trailing `.*` of the source pattern reaches the end of the string). -/
def dateStampAt : List Char → Bool
  | '-' :: y1 :: y2 :: y3 :: y4 :: '-' :: m1 :: m2 :: '-' :: d1 :: d2 :: _ =>
    y1.isDigit && y2.isDigit && y3.isDigit && y4.isDigit &&
      m1.isDigit && m2.isDigit && d1.isDigit && d2.isDigit
  | _ => false

/-- `re.sub(r"-\d{4}-\d{2}-\d{2}.*", "", name)`: truncate at the leftmost
match (the match and everything after it are removed). -/
def truncDateStamp : List Char → List Char
  | [] => []
  | c :: rest => if dateStampAt (c :: rest) then [] else c :: truncDateStamp rest

/-- `clean_model_name`: remove every occurrence of `"las-"`, then truncate at
the first date-stamp match. -/
def clean_model_name (s : String) : String :=
  String.mk (truncDateStamp (stripLasDash s.data))

/-- Index of the leftmost position where `dateStampAt` matches. -/
def firstDateIdx : List Char → Option Nat
  | [] => none
  | c :: rest => if dateStampAt (c :: rest) then some 0 else (firstDateIdx rest).map (· + 1)

/-- The date-stamp pattern exactly as the claim words it: four digits, dash,
two digits, dash, two digits — with no leading dash. -/
def dateStampClaimAt : List Char → Bool
  | y1 :: y2 :: y3 :: y4 :: '-' :: m1 :: m2 :: '-' :: d1 :: d2 :: _ =>
    y1.isDigit && y2.isDigit && y3.isDigit && y4.isDigit &&
      m1.isDigit && m2.isDigit && d1.isDigit && d2.isDigit
  | _ => false

/-- Truncation at the first match of the claim's date-stamp pattern. -/
def truncDateClaim : List Char → List Char
  | [] => []
  | c :: rest => if dateStampClaimAt (c :: rest) then [] else c :: truncDateClaim rest

/-- Model-name cleaning exactly as the claim states it: the literal `"las-"`
removed only when it occurs at the start of the name (and only that
occurrence), then truncation at the first match of the claim's date-stamp
pattern together with everything after it. -/
def clean_model_name_claim (s : String) : String :=
  let l := if List.isPrefixOf ['l', 'a', 's', '-'] s.data then s.data.drop 4 else s.data
  String.mk (truncDateClaim l)

/-- What the summary-JSON read recovers.  Numeric JSON values are modelled as
integers.  `windowk` is `params.windowk` when readable (`none` when `params`
or `windowk` is absent).  `pairingQcModelLines = some v` means the key
`pairing_qc` is present and `v` is its optional `model_lines` entry;
similarly `qcNPairs` for `qc` / `n_pairs`. -/
structure SummaryIn where
  windowk : Option Int
  pairingQcModelLines : Option (Option Int)
  qcNPairs : Option (Option Int)
deriving DecidableEq

/-- Outcome of opening and parsing the summary JSON.  `failure kwAt` models
an exception anywhere in the `try` block (missing file, corrupt JSON, wrong
shapes): `n_pairs` and `total_tokens` keep their initial `0`, and `k_window`
keeps whatever value it had at the raise point (`40` unless `params` had
already been read). -/
inductive SummaryRead
  | failure (kwAt : Int)
  | ok (s : SummaryIn)
deriving DecidableEq

/-- Step 2 of `process_directory`: returns `(k_window, n_pairs, total_tokens)`.
`k_window` defaults to 40; `n_pairs` is `pairing_qc.model_lines`, replaced by
`qc.n_pairs` when it is still 0 and `qc` is present; `total_tokens` is
`n_pairs * k_window` if both are truthy else 0. -/
def readSummary : SummaryRead → Int × Int × Int
  | .failure kwAt => (kwAt, 0, 0)
  | .ok s =>
    let kw := s.windowk.getD 40
    let np1 := match s.pairingQcModelLines with | some v => v.getD 0 | none => 0
    let np := if np1 = 0 then (match s.qcNPairs with | some v => v.getD 0 | none => np1) else np1
    let tt := if np ≠ 0 ∧ kw ≠ 0 then np * kw else 0
    (kw, np, tt)

/-- The `meta` object of an output dataset (compact keys of the source). -/
structure MetaOut where
  np : Int
  kw : Int
  tt : Int
  src : String
  md : Mode
  minv : Int
  sm : ℚ
  n0 : Nat
  n1 : Nat
  nx : Nat
deriving DecidableEq

/-- One written output file: its name and JSON content. -/
structure FileOut where
  fname : String
  meta : MetaOut
  data : List OutRow
deriving DecidableEq

/-- One discovered `(csv, summary)` pair, after metadata extraction:
identity triple, source path, the summary-read outcome, the CSV rows, and
whether the final `json.dump` to the output file succeeds (`writeOk`). -/
structure DatasetIn where
  lang : String
  register : String
  modelRaw : String
  srcPath : String
  summary : SummaryRead
  rows : List CsvRow
  writeOk : Bool

/-- One entry of the global `inventory` list (written to `index.json`). -/
structure InvEntry where
  lang : String
  register : String
  model : String
deriving DecidableEq

/-- The inventory entry the source appends for a dataset. -/
def entryOf (d : DatasetIn) : InvEntry :=
  { lang := d.lang, register := d.register, model := clean_model_name d.modelRaw }

/-- Steps 2–5 of `process_directory` for one discovered dataset: summary
read, CSV processing, ranking, and the file write.  `none` models the `try`
block catching an exception (CSV processing error or failed write): no
output, and — since `inventory.append` comes after the write — no inventory
entry. -/
def processDataset (flog2 : ℚ → ℚ) (minAi : Int) (mode : Mode) (sm : ℚ) (d : DatasetIn) :
    Option FileOut :=
  let kw := (readSummary d.summary).1
  let np := (readSummary d.summary).2.1
  let tt := (readSummary d.summary).2.2
  let cfg : Config := { minAi := minAi, mode := mode, sm := sm, totalTokens := tt }
  match processRows flog2 cfg d.rows with
  | .error _ => none
  | .ok (rs, n0, nx) =>
    let ranked := rankRows rs
    let fo : FileOut :=
      { fname := d.lang ++ "_" ++ d.register ++ "_" ++ clean_model_name d.modelRaw ++ ".json"
        meta :=
          { np := np, kw := kw, tt := tt, src := d.srcPath, md := mode, minv := minAi,
            sm := sm, n0 := n0, n1 := ranked.length, nx := nx }
        data := ranked }
    if d.writeOk then some fo else none

/-- The traversal: process each discovered dataset in discovery order,
collecting the written files and the global inventory list. -/
def runAll (flog2 : ℚ → ℚ) (minAi : Int) (mode : Mode) (sm : ℚ) :
    List DatasetIn → List FileOut × List InvEntry
  | [] => ([], [])
  | d :: rest =>
    match processDataset flog2 minAi mode sm d with
    | some fo =>
      ((fo :: (runAll flog2 minAi mode sm rest).1), entryOf d :: (runAll flog2 minAi mode sm rest).2)
    | none => runAll flog2 minAi mode sm rest

/-- The epsilon substituted for `ell_H` in the distinctiveness term. -/
def epsKL : ℚ := 1 / 1000000000

/-- Modelled from the spec: the optional distinctiveness (pointwise KL term)
of the pipeline variant that reads prevalence columns `ell_M` / `ell_H`; that
variant is not among the source files.  Per the spec: if both prevalences are
positive, `ell_M * ln(ell_M / ell_H)`; if `ell_M > 0` and `ell_H == 0`,
substitute the epsilon `1e-9` for `ell_H`; otherwise 0; rounded to 5
decimals.  `fln` is the float `math.log`. -/
def distinctiveness (fln : ℚ → ℚ) (ellM ellH : ℚ) : ℚ :=
  if 0 < ellM ∧ 0 < ellH then pyRound 5 (ellM * fln (ellM / ellH))
  else if 0 < ellM ∧ ellH = 0 then pyRound 5 (ellM * fln (ellM / epsKL))
  else 0

/-- Identity on ℚ, used as a concrete stand-in for the abstract float
logarithms in witness instantiations. -/
def idq : ℚ → ℚ := fun q => q

deriving instance DecidableEq for Except

/-- Concrete configuration for witness instantiations (the source defaults:
`min_ai_count_for_impact = 20`, `ratio_smooth = 0.5`, `mode = full`). -/
def wCfgFull : Config := { minAi := 20, mode := Mode.full, sm := 1 / 2, totalTokens := 1000 }

/-- Concrete compact-mode configuration for witness instantiations. -/
def wCfgCompact : Config := { minAi := 20, mode := Mode.compact, sm := 1 / 2, totalTokens := 1000 }

/-- A well-formed CSV row: `form="ok"`, `c_M="30"`, `c_H="10"`, `LAS="2.5"`. -/
def wGoodRow : CsvRow :=
  { form := some { raw := "ok", num := none }
    upos := none
    c_M := some { raw := "30", num := some 30 }
    c_H := some { raw := "10", num := some 10 }
    las := some { raw := "2.5", num := some (5 / 2) } }

/-- A CSV row whose `c_M` field holds the unparseable text `"abc"`. -/
def wBadRow : CsvRow :=
  { form := some { raw := "bad", num := none }
    upos := none
    c_M := some { raw := "abc", num := none }
    c_H := some { raw := "10", num := some 10 }
    las := some { raw := "1", num := some 1 } }

/-- A CSV row whose numeric fields are all absent or empty. -/
def wBlankRow : CsvRow :=
  { form := some { raw := "w", num := none }
    upos := none
    c_M := none
    c_H := some { raw := "", num := none }
    las := none }

/-- A CSV row with `c_M="0"` and `c_H="7"` (for the compact filter). -/
def wZeroRow : CsvRow :=
  { form := some { raw := "z0", num := none }
    upos := none
    c_M := some { raw := "0", num := some 0 }
    c_H := some { raw := "7", num := some 7 }
    las := some { raw := "1", num := some 1 } }

/-- The row the pipeline emits for `wGoodRow` under `wCfgFull` (with
`flog2 = idq`): OPMs 30000/10000, ratio 30.5/10.5 rounded to 2.9,
`lpr = (30+1)/(10+1)`. -/
def wGoodOut : OutRow :=
  { w := "ok", u := "UNK", las := 5 / 2, lpr := 31 / 11, a := 30000, h := 10000, r := 29 / 10,
    rk_las := 0, rk_lpr := 0 }

/-- A concrete summary read: `windowk=40`, `pairing_qc.model_lines=25`. -/
def wSummary : SummaryRead :=
  .ok { windowk := some 40, pairingQcModelLines := some (some 25), qcNPairs := none }

/-- A concrete discovered dataset: one good row and one pure-punctuation row. -/
def wDataset : DatasetIn :=
  { lang := "en", register := "news", modelRaw := "las-gpt-2024-01-02", srcPath := "p"
    summary := wSummary
    rows := [wGoodRow,
      { form := some { raw := "...", num := none }, upos := none, c_M := none, c_H := none,
        las := none }]
    writeOk := true }

/-- The output file the pipeline writes for `wDataset` (under the default
full-mode configuration, with `flog2 = idq`). -/
def wFileOut : FileOut :=
  { fname := "en_news_gpt.json"
    meta :=
      { np := 25, kw := 40, tt := 1000, src := "p", md := Mode.full, minv := 20, sm := 1 / 2,
        n0 := 2, n1 := 1, nx := 1 }
    data := [{ w := "ok", u := "UNK", las := 5 / 2, lpr := 14091 / 5000, a := 30000, h := 10000,
               r := 29 / 10, rk_las := 1, rk_lpr := 1 }] }

/-! ## Helper lemmas -/

theorem filter_orderedInsert_of {α : Type} (r : α → α → Prop) [DecidableRel r] (p : α → Bool)
    (h : ∀ x, p x = true → ∀ b, ¬ r x b → p b = false) (a : α) (l : List α) :
    (l.orderedInsert r a).filter p = if p a then a :: l.filter p else l.filter p := by
  induction l with
  | nil => cases hpa : p a <;> simp [List.orderedInsert, List.filter_cons, hpa]
  | cons b l ih =>
    by_cases hr : r a b
    · cases hpa : p a <;> simp [List.orderedInsert, hr, List.filter_cons, hpa]
    · cases hpa : p a
      · simp only [List.orderedInsert, if_neg hr, List.filter_cons, ih, hpa]
        cases hpb : p b <;> simp [hpb]
      · have hpb : p b = false := h a hpa b hr
        simp [List.orderedInsert, hr, List.filter_cons, ih, hpa, hpb]

theorem filter_insertionSort_of {α : Type} (r : α → α → Prop) [DecidableRel r] (p : α → Bool)
    (h : ∀ x, p x = true → ∀ b, ¬ r x b → p b = false) (l : List α) :
    (l.insertionSort r).filter p = l.filter p := by
  induction l with
  | nil => rfl
  | cons x l ih =>
    cases hpx : p x <;>
      simp [List.insertionSort, filter_orderedInsert_of r p h, ih, List.filter_cons, hpx]

theorem map_rkLas_assignRkLasFrom : ∀ (l : List OutRow) (i : Nat),
    (assignRkLasFrom i l).map (fun r => r.rk_las) = List.range' (i + 1) l.length
  | [], _ => rfl
  | r :: rest, i => by
    simp [assignRkLasFrom, map_rkLas_assignRkLasFrom rest (i + 1), List.range'_succ]

theorem map_rkLpr_assignRkLprFrom : ∀ (l : List OutRow) (i : Nat),
    (assignRkLprFrom i l).map (fun r => r.rk_lpr) = List.range' (i + 1) l.length
  | [], _ => rfl
  | r :: rest, i => by
    simp [assignRkLprFrom, map_rkLpr_assignRkLprFrom rest (i + 1), List.range'_succ]

theorem map_rkLas_assignRkLprFrom : ∀ (l : List OutRow) (i : Nat),
    (assignRkLprFrom i l).map (fun r => r.rk_las) = l.map (fun r => r.rk_las)
  | [], _ => rfl
  | r :: rest, i => by
    simp [assignRkLprFrom, map_rkLas_assignRkLprFrom rest (i + 1)]

theorem length_assignRkLasFrom (l : List OutRow) (i : Nat) :
    (assignRkLasFrom i l).length = l.length := by
  have := congrArg List.length (map_rkLas_assignRkLasFrom l i)
  simpa using this

theorem length_assignRkLprFrom (l : List OutRow) (i : Nat) :
    (assignRkLprFrom i l).length = l.length := by
  have := congrArg List.length (map_rkLpr_assignRkLprFrom l i)
  simpa using this

theorem rkLas_roundFinal (r : OutRow) : (roundFinal r).rk_las = r.rk_las := rfl

theorem rkLpr_roundFinal (r : OutRow) : (roundFinal r).rk_lpr = r.rk_lpr := rfl

theorem processRow_full_ne_compact (flog2 : ℚ → ℚ) (cfg : Config) (row : CsvRow)
    (h : cfg.mode = Mode.full) : processRow flog2 cfg row ≠ RowResult.droppedCompact := by
  intro hc
  simp only [processRow] at hc
  split at hc
  · split at hc
    · exact RowResult.noConfusion hc
    · split at hc
      · exact RowResult.noConfusion hc
      · split at hc
        · rename_i hcm
          rw [h] at hcm
          exact Mode.noConfusion hcm.1
        · split at hc
          · exact RowResult.noConfusion hc
          · split at hc
            · exact RowResult.noConfusion hc
            · split at hc
              · exact RowResult.noConfusion hc
              · exact RowResult.noConfusion hc
  · exact RowResult.noConfusion hc

theorem processRows_counts (flog2 : ℚ → ℚ) (cfg : Config) :
    ∀ (l : List CsvRow) (rs : List OutRow) (n0 nx : Nat),
      processRows flog2 cfg l = .ok (rs, n0, nx) →
        rs.length + nx ≤ n0 ∧ (cfg.mode = Mode.full → n0 = rs.length + nx) := by
  intro l
  induction l with
  | nil =>
    intro rs n0 nx h
    simp only [processRows] at h
    cases h
    simp
  | cons row rest ih =>
    intro rs n0 nx h
    simp only [processRows] at h
    cases hpr : processRow flog2 cfg row <;> rw [hpr] at h
    · exact Except.noConfusion h
    · cases hrec : processRows flog2 cfg rest <;> rw [hrec] at h
      · exact Except.noConfusion h
      · rename_i val
        obtain ⟨rs1, n1, x1⟩ := val
        simp only [Except.ok.injEq, Prod.mk.injEq] at h
        obtain ⟨rfl, rfl, rfl⟩ := h
        have hi := ih rs1 n1 x1 hrec
        exact ⟨by omega, fun hm => by have := hi.2 hm; omega⟩
    · cases hrec : processRows flog2 cfg rest <;> rw [hrec] at h
      · exact Except.noConfusion h
      · rename_i val
        obtain ⟨rs1, n1, x1⟩ := val
        simp only [Except.ok.injEq, Prod.mk.injEq] at h
        obtain ⟨rfl, rfl, rfl⟩ := h
        have hi := ih rs1 n1 x1 hrec
        refine ⟨by omega, fun hm => ?_⟩
        exact absurd hpr (processRow_full_ne_compact flog2 cfg row hm)
    · cases hrec : processRows flog2 cfg rest <;> rw [hrec] at h
      · exact Except.noConfusion h
      · rename_i r val
        obtain ⟨rs1, n1, x1⟩ := val
        simp only [Except.ok.injEq, Prod.mk.injEq] at h
        obtain ⟨rfl, rfl, rfl⟩ := h
        have hi := ih rs1 n1 x1 hrec
        constructor
        · simp only [List.length_cons]
          omega
        · intro hm
          have := hi.2 hm
          simp only [List.length_cons]
          omega

theorem processRows_error_of_mem (flog2 : ℚ → ℚ) (cfg : Config) :
    ∀ (l : List CsvRow), (∃ row ∈ l, processRow flog2 cfg row = RowResult.err) →
      processRows flog2 cfg l = .error () := by
  intro l
  induction l with
  | nil => rintro ⟨row, hm, _⟩; cases hm
  | cons row rest ih =>
    rintro ⟨bad, hm, hbad⟩
    rcases List.mem_cons.mp hm with rfl | hm'
    · simp only [processRows, hbad]
    · have hrec := ih ⟨bad, hm', hbad⟩
      simp only [processRows, hrec]
      cases hpr : processRow flog2 cfg row <;> rfl

theorem rankRows_length (l : List OutRow) : (rankRows l).length = l.length := by
  simp [rankRows, List.length_insertionSort, length_assignRkLprFrom, length_assignRkLasFrom]

/-! ## Claims -/

/-- C2: for rows carrying the prevalence fields, the distinctiveness score is
`ell_M * ln(ell_M / ell_H)` (rounded to 5 decimals) when both prevalences are
positive, `ell_M * ln(ell_M / 1e-9)` (epsilon substituted for `ell_H`,
rounded to 5 decimals) when `ell_M > 0` and `ell_H = 0`, and `0` otherwise. -/
theorem C2_distinctiveness (fln : ℚ → ℚ) (ellM ellH : ℚ) :
    (0 < ellM → 0 < ellH →
      distinctiveness fln ellM ellH = pyRound 5 (ellM * fln (ellM / ellH))) ∧
    (0 < ellM → ellH = 0 →
      distinctiveness fln ellM ellH = pyRound 5 (ellM * fln (ellM / (1 / 1000000000)))) ∧
    (¬(0 < ellM ∧ 0 < ellH) → ¬(0 < ellM ∧ ellH = 0) →
      distinctiveness fln ellM ellH = 0) := by
  refine ⟨fun h1 h2 => ?_, fun h1 h2 => ?_, fun h1 h2 => ?_⟩
  · simp [distinctiveness, h1, h2]
  · have : ¬ (0 < ellM ∧ 0 < ellH) := by rintro ⟨_, hH⟩; rw [h2] at hH; exact lt_irrefl 0 hH
    simp [distinctiveness, this, h1, h2, epsKL]
  · simp [distinctiveness, h1, h2]

/-- Witness for C2 at concrete inputs. -/
theorem C2_witness :
    distinctiveness idq 2 1 = pyRound 5 (2 * idq (2 / 1)) ∧
    distinctiveness idq 2 0 = pyRound 5 (2 * idq (2 / (1 / 1000000000))) ∧
    distinctiveness idq 0 5 = 0 :=
  ⟨(C2_distinctiveness idq 2 1).1 (by decide) (by decide),
   (C2_distinctiveness idq 2 0).2.1 (by decide) (by decide),
   (C2_distinctiveness idq 0 5).2.2 (by decide) (by decide)⟩

/-- C6: for non-negative counts and positive `ratio_smooth`, the smoothed
ratio is defined (its denominator is non-zero, so no `ZeroDivisionError`) and
equals the genuine quotient `(c_M + s) / (c_H + s)`. -/
theorem C6_smoothed_ratio (cM cH s : ℚ) (_h1 : 0 ≤ cM) (h2 : 0 ≤ cH) (h3 : 0 < s) :
    cH + s ≠ 0 ∧ smoothedRatioE cM cH s = .ok ((cM + s) / (cH + s)) ∧
      (cM + s) / (cH + s) * (cH + s) = cM + s := by
  have hd : cH + s ≠ 0 := by positivity
  exact ⟨hd, by simp [smoothedRatioE, hd], div_mul_cancel₀ _ hd⟩

/-- Witness for C6 at `c_M = 0`, `c_H = 0`, `s = 1/2`. -/
theorem C6_witness :
    (0 : ℚ) + 1 / 2 ≠ 0 ∧ smoothedRatioE 0 0 (1 / 2) = .ok ((0 + 1 / 2) / (0 + 1 / 2)) ∧
      ((0 : ℚ) + 1 / 2) / ((0 : ℚ) + 1 / 2) * ((0 : ℚ) + 1 / 2) = (0 : ℚ) + 1 / 2 :=
  C6_smoothed_ratio 0 0 (1 / 2) (by decide) (by decide) (by decide)

/-- C7: the summary reader takes `k_window` from `params.windowk` with
default 40; the pair count comes from `pairing_qc.model_lines`, falling back
to `qc.n_pairs` when the former is absent or zero and defaulting to 0 when
neither is present; `total_tokens = n_pairs * k_window`, 0 when either factor
is zero or missing; and a read/parse failure yields `total_tokens = 0`. -/
theorem C7_summary_reader (s : SummaryIn) (kwAt : Int) :
    (readSummary (.failure kwAt)).2.2 = 0 ∧
    (readSummary (.ok s)).1 = s.windowk.getD 40 ∧
    (readSummary (.ok s)).2.1 =
      (if (s.pairingQcModelLines.bind id).getD 0 ≠ 0 then (s.pairingQcModelLines.bind id).getD 0
       else (s.qcNPairs.bind id).getD 0) ∧
    (readSummary (.ok s)).2.2 =
      (if (readSummary (.ok s)).2.1 = 0 ∨ (readSummary (.ok s)).1 = 0 then 0
       else (readSummary (.ok s)).2.1 * (readSummary (.ok s)).1) := by
  refine ⟨rfl, rfl, ?_, ?_⟩
  · cases hp : s.pairingQcModelLines with
    | none =>
      cases hq : s.qcNPairs with
      | none => simp [readSummary, hp, hq]
      | some v => cases v <;> simp [readSummary, hp, hq]
    | some v =>
      cases hq : s.qcNPairs with
      | none =>
        cases v with
        | none => simp [readSummary, hp, hq]
        | some n =>
          by_cases hn : n = 0 <;> simp [readSummary, hp, hq, hn]
      | some u =>
        cases v with
        | none => cases u <;> simp [readSummary, hp, hq]
        | some n =>
          by_cases hn : n = 0 <;> cases u <;> simp [readSummary, hp, hq, hn]
  · simp only [readSummary]
    by_cases hn : (match s.pairingQcModelLines with
        | some v => v.getD 0
        | none => 0) = 0 <;>
      by_cases hk : s.windowk.getD 40 = 0 <;>
        by_cases hq : (match s.qcNPairs with
          | some v => v.getD 0
          | none => (0 : Int)) = 0 <;>
      simp_all [readSummary]

theorem truncDateStamp_take : ∀ l : List Char,
    truncDateStamp l = l.take ((firstDateIdx l).getD l.length)
  | [] => rfl
  | c :: rest => by
    by_cases h : dateStampAt (c :: rest) = true
    · simp [truncDateStamp, firstDateIdx, h]
    · have h' : dateStampAt (c :: rest) = false := by simpa using h
      simp only [truncDateStamp, firstDateIdx, h', Bool.false_eq_true, if_false]
      cases hf : firstDateIdx rest with
      | none =>
        simp [truncDateStamp_take rest, hf]
      | some i =>
        simp [truncDateStamp_take rest, hf, List.take_succ_cons]

theorem stripLasDash_cons_of_ne (c : Char) (u : List Char)
    (h : (c :: u).take 4 ≠ ['l', 'a', 's', '-']) :
    stripLasDash (c :: u) = c :: stripLasDash u := by
  rw [stripLasDash.eq_def]
  split
  · rename_i rest heq
    exact absurd (by rw [heq] ; rfl) h
  · rename_i c2 rest heq
    cases heq
    rfl
  · rename_i heq
    exact absurd heq (by simp)

/-- C3 counterexample: on the folder name `"atlas-b2024-01-02rest"` the code
removes the interior occurrence of `"las-"` (Python `str.replace` is global,
not anchored at the start) and then finds no date stamp (the source regex
requires a dash before the four digits), producing `"atb2024-01-02rest"`;
the claim's reading would leave the name alone (no leading `"las-"`) and
truncate at `"2024-01-02"`, producing `"atlas-b"`. -/
theorem C3_counterexample :
    clean_model_name "atlas-b2024-01-02rest" = "atb2024-01-02rest" ∧
    clean_model_name_claim "atlas-b2024-01-02rest" = "atlas-b" ∧
    clean_model_name "atlas-b2024-01-02rest" ≠
      clean_model_name_claim "atlas-b2024-01-02rest" := by
  refine ⟨by decide, by decide, by decide⟩

/-- C3 amended: model-name cleaning removes every occurrence of the literal
substring `"las-"` (scanning left to right, non-overlapping, not only a
leading one), then truncates at the first match of the date-stamp pattern
with its leading dash (dash, four digits, dash, two digits, dash, two
digits), removing the match and everything after it; characters not part of
a removed occurrence are kept unchanged. -/
theorem C3_amended (s : String) :
    clean_model_name s =
      String.mk ((stripLasDash s.data).take
        ((firstDateIdx (stripLasDash s.data)).getD (stripLasDash s.data).length)) ∧
    (∀ u : List Char, stripLasDash ('l' :: 'a' :: 's' :: '-' :: u) = stripLasDash u) ∧
    (∀ (c : Char) (u : List Char), (c :: u).take 4 ≠ ['l', 'a', 's', '-'] →
      stripLasDash (c :: u) = c :: stripLasDash u) := by
  refine ⟨?_, fun u => rfl, stripLasDash_cons_of_ne⟩
  rw [clean_model_name, truncDateStamp_take]

/-- Witness for C3 amended at concrete inputs. -/
theorem C3_witness :
    clean_model_name "atlas-x" =
      String.mk ((stripLasDash "atlas-x".data).take
        ((firstDateIdx (stripLasDash "atlas-x".data)).getD
          (stripLasDash "atlas-x".data).length)) ∧
    stripLasDash ('l' :: 'a' :: 's' :: '-' :: ['x']) = stripLasDash ['x'] ∧
    stripLasDash ('a' :: ['x']) = 'a' :: stripLasDash ['x'] :=
  ⟨(C3_amended "atlas-x").1,
   (C3_amended "atlas-x").2.1 ['x'],
   (C3_amended "atlas-x").2.2 'a' ['x'] (by decide)⟩

theorem lprE_ok_cases (flog2 : ℚ → ℚ) (m cM cH lpr : ℚ)
    (h : (if m ≤ cM then
        if cH + 1 = 0 then Except.error ()
        else if (cM + 1) / (cH + 1) ≤ 0 then Except.error ()
        else Except.ok (flog2 ((cM + 1) / (cH + 1)))
      else Except.ok 0) = Except.ok lpr) :
    (m ≤ cM → lpr = flog2 ((cM + 1) / (cH + 1))) ∧ (¬ m ≤ cM → lpr = 0) := by
  split at h
  · rename_i hge
    split at h
    · exact Except.noConfusion h
    · split at h
      · exact Except.noConfusion h
      · cases h
        exact ⟨fun _ => rfl, fun hn => absurd hge hn⟩
  · rename_i hlt
    cases h
    exact ⟨fun hle => absurd hle hlt, fun _ => rfl⟩

/-- C5: for every emitted row, the stored impact score is
`log2((c_M + 1) / (c_H + 1))` when the raw AI count is at least
`min_ai_count_for_impact`, and exactly 0 when `c_M` is below the
threshold (`flog2` standing for the float `math.log2`). -/
theorem C5_impact (flog2 : ℚ → ℚ) (cfg : Config) (row : CsvRow) (out : OutRow) (cM cH : ℚ)
    (hM : parseNum row.c_M = .ok cM) (hH : parseNum row.c_H = .ok cH)
    (hE : processRow flog2 cfg row = RowResult.emitted out) :
    ((cfg.minAi : ℚ) ≤ cM → out.lpr = flog2 ((cM + 1) / (cH + 1))) ∧
    (cM < (cfg.minAi : ℚ) → out.lpr = 0) := by
  simp only [processRow, hM, hH] at hE
  split at hE
  · split at hE
    · exact RowResult.noConfusion hE
    · split at hE
      · exact RowResult.noConfusion hE
      · split at hE
        · exact RowResult.noConfusion hE
        · rename_i lprV hlpr
          split at hE
          · exact RowResult.noConfusion hE
          · rename_i lasV hlas
            cases hE
            have hc := lprE_ok_cases flog2 (cfg.minAi : ℚ) cM cH lprV hlpr
            refine ⟨fun hge => ?_, fun hlt => ?_⟩
            · simpa using hc.1 hge
            · simpa using hc.2 (not_le.mpr hlt)
  · exact RowResult.noConfusion hE

/-- Witness for C5: the row with `c_M = 30 ≥ 20` carries
`lpr = flog2(31/11)`; the below-threshold implication holds vacuously. -/
theorem C5_witness :
    parseNum wGoodRow.c_M = .ok 30 ∧ parseNum wGoodRow.c_H = .ok 10 ∧
    processRow idq wCfgFull wGoodRow = RowResult.emitted wGoodOut ∧
    (((wCfgFull.minAi : ℚ) ≤ 30 → wGoodOut.lpr = idq ((30 + 1) / (10 + 1))) ∧
     ((30 : ℚ) < (wCfgFull.minAi : ℚ) → wGoodOut.lpr = 0)) :=
  ⟨by decide, by decide, by decide,
   C5_impact idq wCfgFull wGoodRow wGoodOut 30 10 (by decide) (by decide) (by decide)⟩

/-- C8: in compact mode every row whose parsed AI count is exactly zero is
dropped by the compact filter, whatever its human count; in full mode no row
is ever dropped by the compact filter. -/
theorem C8_compact_filter (flog2 : ℚ → ℚ) (cfg : Config) :
    (∀ (row : CsvRow) (cM cH : ℚ), cfg.mode = Mode.compact →
      has_any_alnum (formStr row) = true →
      parseNum row.c_M = .ok cM → parseNum row.c_H = .ok cH → cM = 0 →
      processRow flog2 cfg row = RowResult.droppedCompact) ∧
    (cfg.mode = Mode.full →
      ∀ row : CsvRow, processRow flog2 cfg row ≠ RowResult.droppedCompact) := by
  constructor
  · intro row cM cH hmode hform hM hH hcM
    simp [processRow, hform, hM, hH, hmode, hcM]
  · intro hmode row
    exact processRow_full_ne_compact flog2 cfg row hmode

/-- Witness for C8: `c_M = "0"`, `c_H = "7"`: dropped in compact mode
(despite the non-zero human count), never compact-dropped in full mode. -/
theorem C8_witness :
    processRow idq wCfgCompact wZeroRow = RowResult.droppedCompact ∧
    processRow idq wCfgFull wZeroRow ≠ RowResult.droppedCompact :=
  ⟨(C8_compact_filter idq wCfgCompact).1 wZeroRow 0 7 (by decide) (by decide) (by decide)
      (by decide) (by decide),
   (C8_compact_filter idq wCfgFull).2 (by decide) wZeroRow⟩

/-- C1 counterexample: the row `wBadRow` carries `c_M = "abc"` — present and
non-empty, so `float()` is called and raises — and the row is not emitted
with a defaulted field: the loop body raises (`err`), and the per-file `try`
aborts the whole file, losing the following well-formed row too. -/
theorem C1_counterexample :
    processRow idq wCfgFull wBadRow = RowResult.err ∧
    processRows idq wCfgFull [wBadRow, wGoodRow] = .error () ∧
    processRow idq wCfgFull wGoodRow = RowResult.emitted wGoodOut :=
  ⟨by decide, by decide, by decide⟩

/-- C1 amended: a numeric field (`c_M`, `c_H`, `LAS`) that is absent or empty
parses as 0.0 and the row is still emitted (subject to the alnum and
compact-mode filters); but a numeric field that is present, non-empty and
unparseable raises `ValueError`, which aborts that row and the entire CSV
file (no rows are emitted for it) — only the rest of the run continues. -/
theorem C1_amended (flog2 : ℚ → ℚ) (cfg : Config) :
    (∀ c : Option Cell, cellBlank c = true → parseNum c = .ok 0) ∧
    (∀ (l : List CsvRow) (row : CsvRow), row ∈ l → processRow flog2 cfg row = RowResult.err →
      processRows flog2 cfg l = .error ()) ∧
    (∀ row : CsvRow, cellBad row.c_M = true → has_any_alnum (formStr row) = true →
      processRow flog2 cfg row = RowResult.err) ∧
    (∀ row : CsvRow, cfg.mode = Mode.full → cfg.sm ≠ 0 →
      has_any_alnum (formStr row) = true →
      cellBlank row.c_M = true → cellBlank row.c_H = true → cellBlank row.las = true →
      ∃ out, processRow flog2 cfg row = RowResult.emitted out ∧ out.las = 0) := by
  have hblank : ∀ c : Option Cell, cellBlank c = true → parseNum c = .ok 0 := by
    intro c hc
    cases c with
    | none => rfl
    | some cl =>
      simp only [cellBlank, decide_eq_true_eq] at hc
      simp [parseNum, hc]
  refine ⟨hblank, ?_, ?_, ?_⟩
  · intro l row hm herr
    exact processRows_error_of_mem flog2 cfg l ⟨row, hm, herr⟩
  · intro row hbad hform
    cases hc : row.c_M with
    | none => rw [hc] at hbad; exact Bool.noConfusion hbad
    | some cl =>
      rw [hc] at hbad
      simp only [cellBad, Bool.decide_and, Bool.and_eq_true, decide_eq_true_eq] at hbad
      simp [processRow, hform, parseNum, hc, hbad.1, hbad.2]
  · intro row hmode hsm hform hcM hcH hlas
    have hM := hblank row.c_M hcM
    have hH := hblank row.c_H hcH
    have hL := hblank row.las hlas
    have hrat : smoothedRatioE 0 0 cfg.sm = .ok ((0 + cfg.sm) / (0 + cfg.sm)) := by
      simp [smoothedRatioE, hsm]
    simp only [processRow, hform, hM, hH, hL, hmode, hrat, if_true]
    by_cases hge : (cfg.minAi : ℚ) ≤ 0
    · simp only [hge, if_true]
      norm_num
      rw [if_neg (by decide : ¬ (Mode.full = Mode.compact))]
      exact ⟨_, rfl, rfl⟩
    · simp only [hge, if_false]
      norm_num
      rw [if_neg (by decide : ¬ (Mode.full = Mode.compact))]
      exact ⟨_, rfl, rfl⟩

/-- Witness for C1 amended: blank-field defaulting, a file aborted by one
bad row, an unparseable cell raising, and a row with all numeric fields
blank emitted with `las = 0`. -/
theorem C1_witness :
    parseNum (some { raw := "", num := none }) = .ok 0 ∧
    processRows idq wCfgFull [wBadRow, wGoodRow] = .error () ∧
    processRow idq wCfgFull wBadRow = RowResult.err ∧
    (∃ out, processRow idq wCfgFull wBlankRow = RowResult.emitted out ∧ out.las = 0) :=
  ⟨(C1_amended idq wCfgFull).1 (some { raw := "", num := none }) (by decide),
   (C1_amended idq wCfgFull).2.1 [wBadRow, wGoodRow] wBadRow (by decide)
     ((C1_amended idq wCfgFull).2.2.1 wBadRow (by decide) (by decide)),
   (C1_amended idq wCfgFull).2.2.1 wBadRow (by decide) (by decide),
   (C1_amended idq wCfgFull).2.2.2 wBlankRow (by decide) (by decide) (by decide) (by decide)
     (by decide) (by decide)⟩

/-- C9: for every dataset whose processing succeeds, the meta diagnostics
satisfy `n1 + nx ≤ n0`, with equality `n0 = n1 + nx` in full mode (every CSV
row read is either written or dropped by the alnum filter). -/
theorem C9_meta_counts (flog2 : ℚ → ℚ) (minAi : Int) (mode : Mode) (sm : ℚ) (d : DatasetIn)
    (fo : FileOut) (h : processDataset flog2 minAi mode sm d = some fo) :
    fo.meta.n1 + fo.meta.nx ≤ fo.meta.n0 ∧
    (mode = Mode.full → fo.meta.n0 = fo.meta.n1 + fo.meta.nx) := by
  simp only [processDataset] at h
  split at h
  · exact Option.noConfusion h
  · rename_i rs n0 nx hpr
    split at h
    · cases h
      have hc := processRows_counts flog2 _ d.rows rs n0 nx hpr
      refine ⟨?_, fun hm => ?_⟩
      · simpa [rankRows_length] using hc.1
      · have := hc.2 (by simpa using hm)
        simpa [rankRows_length] using this
    · exact Option.noConfusion h

/-- Witness for C9: the concrete dataset `wDataset` (2 CSV rows, one dropped
by the alnum filter) yields `n0 = 2`, `n1 = 1`, `nx = 1`. -/
theorem C9_witness :
    wFileOut.meta.n1 + wFileOut.meta.nx ≤ wFileOut.meta.n0 ∧
    (Mode.full = Mode.full → wFileOut.meta.n0 = wFileOut.meta.n1 + wFileOut.meta.nx) :=
  C9_meta_counts idq 20 Mode.full (1 / 2) wDataset wFileOut (by decide)

/-- C10: the written outputs are exactly the successfully processed datasets
in discovery order, and the inventory lists exactly those datasets' identity
triples in the same order — a dataset whose CSV processing or file write
fails contributes neither. -/
theorem C10_inventory (flog2 : ℚ → ℚ) (minAi : Int) (mode : Mode) (sm : ℚ)
    (ds : List DatasetIn) :
    (runAll flog2 minAi mode sm ds).1 = ds.filterMap (processDataset flog2 minAi mode sm) ∧
    (runAll flog2 minAi mode sm ds).2 =
      (ds.filter (fun d => (processDataset flog2 minAi mode sm d).isSome)).map entryOf := by
  induction ds with
  | nil => exact ⟨rfl, rfl⟩
  | cons d rest ih =>
    cases hd : processDataset flog2 minAi mode sm d <;>
      simp [runAll, hd, List.filterMap_cons, List.filter_cons, ih.1, ih.2]

/-- C4: ranking assigns `rk_las` and `rk_lpr` by two stable descending sorts
with `position + 1` ranks — over any row list the emitted `rk_las` values
(and likewise `rk_lpr`) are exactly `1..n`, never shared; the final stable
ascending sort by `rk_las` fixes the output order, so re-sorting the emitted
rows by `rk_las` ascending reproduces exactly the emitted order; and each
descending pass is stable: rows with equal key keep their first-seen
relative order. -/
theorem C4_ranking (l : List OutRow) :
    ((rankRows l).map (fun r => r.rk_las)).Perm (List.range' 1 l.length) ∧
    ((rankRows l).map (fun r => r.rk_lpr)).Perm (List.range' 1 l.length) ∧
    List.insertionSort rkLasLe (rankRows l) = rankRows l ∧
    (∀ v : ℚ, (List.insertionSort lasGe l).filter (fun r => decide (r.las = v)) =
      l.filter (fun r => decide (r.las = v))) ∧
    (∀ (m : List OutRow) (v : ℚ),
      (List.insertionSort lprGe m).filter (fun r => decide (r.lpr = v)) =
        m.filter (fun r => decide (r.lpr = v))) := by
  have hrk : rankRows l =
      (List.insertionSort rkLasLe (assignRkLprFrom 0 (List.insertionSort lprGe
        (assignRkLasFrom 0 (List.insertionSort lasGe l))))).map roundFinal := rfl
  have hcomp1 : ∀ (m : List OutRow),
      (m.map roundFinal).map (fun r => r.rk_las) = m.map (fun r => r.rk_las) := by
    intro m; rw [List.map_map]; rfl
  have hcomp2 : ∀ (m : List OutRow),
      (m.map roundFinal).map (fun r => r.rk_lpr) = m.map (fun r => r.rk_lpr) := by
    intro m; rw [List.map_map]; rfl
  have hlenA : (List.insertionSort lasGe l).length = l.length := by
    simp [List.length_insertionSort]
  have hlena : (assignRkLasFrom 0 (List.insertionSort lasGe l)).length = l.length := by
    rw [length_assignRkLasFrom, hlenA]
  have hlenB : (List.insertionSort lprGe
      (assignRkLasFrom 0 (List.insertionSort lasGe l))).length = l.length := by
    simp [List.length_insertionSort, hlena]
  refine ⟨?_, ?_, ?_, ?_, ?_⟩
  · rw [hrk, hcomp1]
    refine ((List.perm_insertionSort rkLasLe _).map _).trans ?_
    rw [map_rkLas_assignRkLprFrom]
    refine ((List.perm_insertionSort lprGe _).map _).trans ?_
    rw [map_rkLas_assignRkLasFrom, hlenA]
  · rw [hrk, hcomp2]
    refine ((List.perm_insertionSort rkLasLe _).map _).trans ?_
    rw [map_rkLpr_assignRkLprFrom, hlenB]
  · rw [hrk]
    have hs : (List.insertionSort rkLasLe (assignRkLprFrom 0 (List.insertionSort lprGe
        (assignRkLasFrom 0 (List.insertionSort lasGe l))))).Sorted rkLasLe :=
      List.sorted_insertionSort rkLasLe _
    have hs2 : ((List.insertionSort rkLasLe (assignRkLprFrom 0 (List.insertionSort lprGe
        (assignRkLasFrom 0 (List.insertionSort lasGe l))))).map roundFinal).Sorted rkLasLe :=
      List.Pairwise.map roundFinal (fun x y hxy => by
        simpa [rkLasLe, rkLas_roundFinal] using hxy) hs
    exact hs2.insertionSort_eq
  · intro v
    refine filter_insertionSort_of lasGe _ ?_ l
    intro x hx b hb
    simp only [decide_eq_true_eq] at hx
    simp only [decide_eq_false_iff_not]
    rw [← hx]
    exact ne_of_gt (lt_of_not_le hb)
  · intro m v
    refine filter_insertionSort_of lprGe _ ?_ m
    intro x hx b hb
    simp only [decide_eq_true_eq] at hx
    simp only [decide_eq_false_iff_not]
    rw [← hx]
    exact ne_of_gt (lt_of_not_le hb)
